import Mathlib

/-! Verification of the clipforge subprocess-orchestration layer
(`src-tauri/src`): the time/rate codec (`ffmpeg/parsers.rs`), the export
pipeline (`commands/export.rs`) and the recording registry
(`commands/recording.rs`), shallowly embedded in Lean.

Rust `f64` values reaching `parse_ffmpeg_time` are modelled exactly over `ℚ`
together with the IEEE special values (the two infinities and NaN); the
rounding of `f64` arithmetic is not modelled — on the inputs the claims are
about, every operation the source performs is exact. -/

namespace Clipforge

/- Core marks the `Rat` field operations irreducible; the embedding evaluates
rational arithmetic on concrete inputs, so restore their reducibility for
this file. -/
attribute [local semireducible] Rat.mul Rat.inv Rat.add Rat.sub

/-- A Rust `f64` value as an exact rational plus the IEEE special values. -/
inductive FVal where
  | finite (q : ℚ)
  | posInf
  | negInf
  | nan
deriving DecidableEq

/-- Multiplication of an `f64` by a positive finite constant (the source
multiplies only by `3600.0`, `60.0` and `1000.0`). -/
def FVal.scaleP : FVal → ℚ → FVal
  | .finite q, k => .finite (q * k)
  | .posInf, _ => .posInf
  | .negInf, _ => .negInf
  | .nan, _ => .nan

/-- IEEE addition of two `f64` values (exact on the finite part). -/
def FVal.add : FVal → FVal → FVal
  | .nan, _ => .nan
  | _, .nan => .nan
  | .posInf, .negInf => .nan
  | .negInf, .posInf => .nan
  | .posInf, _ => .posInf
  | _, .posInf => .posInf
  | .negInf, _ => .negInf
  | _, .negInf => .negInf
  | .finite a, .finite b => .finite (a + b)

/-- Number of values of a `u64`. -/
def U64SIZE : ℕ := 2 ^ 64

/-- Rust `as u64` on an `f64`: truncation toward zero, saturating at the
bounds of `u64`, with NaN mapped to `0`. -/
def FVal.toU64 : FVal → ℕ
  | .nan => 0
  | .negInf => 0
  | .posInf => U64SIZE - 1
  | .finite q => if q < 0 then 0 else if (U64SIZE : ℚ) ≤ q then U64SIZE - 1 else q.floor.toNat

/-- An `f64` value strictly below zero (negative infinity included). -/
def FVal.isNeg : FVal → Bool
  | .finite q => q < 0
  | .negInf => true
  | _ => false

/-- ASCII digit, as in Rust's float grammar. -/
def isDigitChar (c : Char) : Bool := c.isDigit

/-- Value of a string of ASCII digits, most significant first. -/
def digitsVal (cs : List Char) : ℕ :=
  cs.foldl (fun a c => a * 10 + (c.toNat - 48)) 0

/-- Strip one leading `+` or `-`, reporting whether it was `-`. -/
def stripSign : List Char → Bool × List Char
  | '-' :: r => (true, r)
  | '+' :: r => (false, r)
  | cs => (false, cs)

/-- The exponent part of a Rust float literal: an optional sign, then at
least one digit. -/
def parseExpPart (cs : List Char) : Option ℤ :=
  match stripSign cs with
  | (neg, r) =>
    if r.isEmpty then none
    else if r.all isDigitChar then
      some (if neg then -(digitsVal r : ℤ) else (digitsVal r : ℤ))
    else none

/-- The mantissa of a Rust float literal: `Digit+`, `Digit+ . Digit*` or
`Digit* . Digit+`. -/
def parseMantissa (cs : List Char) : Option ℚ :=
  let ip := cs.takeWhile isDigitChar
  match cs.dropWhile isDigitChar with
  | [] => if ip.isEmpty then none else some (digitsVal ip : ℚ)
  | '.' :: fr =>
    if fr.all isDigitChar then
      if ip.isEmpty && fr.isEmpty then none
      else some ((digitsVal ip : ℚ) + (digitsVal fr : ℚ) / 10 ^ fr.length)
    else none
  | _ => none

/-- Whether a character opens the exponent of a float literal. -/
def isExpChar (c : Char) : Bool := c == 'e' || c == 'E'

/-- Split a float literal body at its first `e`/`E`, when it has one. -/
def splitExp (cs : List Char) : List Char × Option (List Char) :=
  match cs.dropWhile (fun c => !isExpChar c) with
  | [] => (cs.takeWhile (fun c => !isExpChar c), none)
  | _ :: t => (cs.takeWhile (fun c => !isExpChar c), some t)

/-- Rust `str::parse::<f64>`: an optional sign, then (case-insensitively)
`inf`, `infinity` or `nan`, or a decimal mantissa with optional exponent.
The value is computed exactly over `ℚ` (`f64` rounding is not modelled). -/
def parseF64 (cs : List Char) : Option FVal :=
  match stripSign cs with
  | (neg, r) =>
    let low := r.map Char.toLower
    if low = "inf".data ∨ low = "infinity".data then
      some (if neg then .negInf else .posInf)
    else if low = "nan".data then some .nan
    else
      match splitExp r with
      | (m, none) => (parseMantissa m).map (fun q => .finite (if neg then -q else q))
      | (m, some ecs) =>
        match parseMantissa m, parseExpPart ecs with
        | some q, some e => some (.finite (if neg then -(q * 10 ^ e) else q * 10 ^ e))
        | _, _ => none

/-- Keep a run of characters not equal to `x` attached to the head of the
first piece of a split. -/
def consHead (x : Char) : List (List Char) → List (List Char)
  | [] => [[x]]
  | h :: t => (x :: h) :: t

/-- Rust `str::split(c)`: the pieces between occurrences of `c`, empty
pieces kept (`"".split(c)` is one empty piece). -/
def splitOnChar (c : Char) : List Char → List (List Char)
  | [] => [[]]
  | x :: xs => if x = c then [] :: splitOnChar c xs else consHead x (splitOnChar c xs)

/-- The intermediate `total_seconds` of `parse_ffmpeg_time`
(`hours * 3600.0 + minutes * 60.0 + seconds`, left associated as in the
source), available when the string has exactly three `:`-separated fields
and each parses as an `f64`. -/
def ffmpegTimeSeconds (cs : List Char) : Option FVal :=
  match splitOnChar ':' cs with
  | [p0, p1, p2] =>
    match parseF64 p0, parseF64 p1, parseF64 p2 with
    | some h, some m, some s => some (((h.scaleP 3600).add (m.scaleP 60)).add s)
    | _, _, _ => none
  | _ => none

/-- `parse_ffmpeg_time` of `ffmpeg/parsers.rs`: split on `:` into exactly
three fields, parse each as `f64`, combine to seconds and convert
`total_seconds * 1000.0` to `u64`. -/
def parse_ffmpeg_time (time_str : String) : Option ℕ :=
  (ffmpegTimeSeconds time_str.data).map (fun t => (t.scaleP 1000).toU64)

/-- `calculate_thumbnail_time` of `ffmpeg/parsers.rs`:
`(duration_ms / 10).max(500).min(5000)` over `u64`. -/
def calculate_thumbnail_time (duration_ms : ℕ) : ℕ :=
  let ten_percent := duration_ms / 10
  Nat.min (Nat.max ten_percent 500) 5000

example : parse_ffmpeg_time "01:02:03.500" = some 3723500 := by decide
example : parse_ffmpeg_time "1:2" = none := by decide
example : parse_ffmpeg_time "a:b:c" = none := by decide
example : parse_ffmpeg_time "-1:00:00" = some 0 := by decide
example : calculate_thumbnail_time 20000 = 2000 := by decide

/-! Types of `types.rs` and the export pipeline of `commands/export.rs`. -/

deriving instance DecidableEq for Except

/-- The uniform error envelope of `types.rs`. -/
structure ErrorEnvelope where
  code : String
  message : String
  hint : String
deriving DecidableEq

/-- `ExportClip` of `types.rs` (`u64` fields as `ℕ` below `2^64`). -/
structure ExportClip where
  asset_path : String
  in_ms : ℕ
  out_ms : ℕ
deriving DecidableEq

/-- `ExportRequest` of `types.rs`. -/
structure ExportRequest where
  clips : List ExportClip
  output_path : String
  width : Option ℕ
  height : Option ℕ

/-- `ExportPrepareResult` of `types.rs`. -/
structure ExportPrepareResult where
  segment_paths : List String
  list_file : String
  total_duration_ms : ℕ
deriving DecidableEq

/-- `ExportProgress` of `types.rs`; the `f32` fraction is modelled over `ℚ`. -/
structure ExportProgress where
  stage : String
  progress : ℚ
  current_ms : ℕ
  total_ms : ℕ
  message : String
deriving DecidableEq

/-- Wrapping `u64` subtraction (Rust release-profile overflow semantics). -/
def u64sub (a b : ℕ) : ℕ := ((((a : ℤ) - b) % (U64SIZE : ℤ))).toNat

/-- Wrapping `u64` addition. -/
def u64add (a b : ℕ) : ℕ := (a + b) % U64SIZE

/-- The parts of the environment `export_prepare` consults: which source
paths exist on disk, and the exit status of the encoder invocation for the
segment of each index. -/
structure PrepareEnv where
  fileExists : String → Bool
  encodeOk : ℕ → Bool

/-- Rust `format!("{:04}", i)`: decimal, zero-padded to at least four digits. -/
def pad4 (i : ℕ) : String :=
  let s := toString i
  String.mk (List.replicate (4 - s.length) '0') ++ s

/-- The segment file `export_dir.join(format!("segment_{:04}.mp4", i))`. -/
def segmentPath (exportDir : String) (i : ℕ) : String :=
  exportDir ++ "/segment_" ++ pad4 i ++ ".mp4"

/-- The `FILE_NOT_FOUND` envelope `export_prepare` returns for a missing
source path. -/
def fileNotFoundErr (path : String) : ErrorEnvelope :=
  ⟨"FILE_NOT_FOUND", "Source file not found: " ++ path,
   "Make sure all source files are available"⟩

/-- The `SEGMENT_FAILED` envelope for a non-zero encoder exit on segment `i`
(the captured stderr text appended in the source is not modelled). -/
def segmentFailedErr (i : ℕ) : ErrorEnvelope :=
  ⟨"SEGMENT_FAILED", "Failed to create segment " ++ toString i,
   "Check if the source file is valid"⟩

/-- The clip loop of `export_prepare`: check the source exists, compute the
wrapping `u64` duration and accumulate it, run the encoder, collect the
segment path. Besides the result, returns the segment files the call
actually encoded (those of the iterations that ran the encoder with exit 0). -/
def exportPrepareGo (env : PrepareEnv) (exportDir : String) :
    List ExportClip → ℕ → List String → ℕ →
    Except ErrorEnvelope (List String × ℕ) × List String
  | [], _, acc, total => (.ok (acc, total), acc)
  | clip :: rest, i, acc, total =>
    if env.fileExists clip.asset_path then
      let duration_ms := u64sub clip.out_ms clip.in_ms
      let total' := u64add total duration_ms
      if env.encodeOk i then
        exportPrepareGo env exportDir rest (i + 1) (acc ++ [segmentPath exportDir i]) total'
      else (.error (segmentFailedErr i), acc)
    else (.error (fileNotFoundErr clip.asset_path), acc)

/-- The concat-list body: the source appends `format!("file '{}'\n", p)` for
each segment path to an initially empty string. -/
def manifestContent (paths : List String) : String :=
  paths.foldl (fun acc p => acc ++ "file '" ++ p ++ "'\n") ""

/-- What a run of `export_prepare` produces: its returned value and, as the
observable side effects, the segment files it encoded and the manifest body
it wrote (none when it failed before the write). -/
structure PrepareOutcome where
  result : Except ErrorEnvelope ExportPrepareResult
  encodedSegments : List String
  manifest : Option String
deriving DecidableEq

/-- `export_prepare` of `commands/export.rs` over the explicit environment;
the scratch-directory bootstrap and the manifest write are assumed to
succeed (their failures depend on I/O alone, not on the request). -/
def export_prepare (env : PrepareEnv) (exportDir : String) (request : ExportRequest) :
    PrepareOutcome :=
  match exportPrepareGo env exportDir request.clips 0 [] 0 with
  | (.error e, tr) => ⟨.error e, tr, none⟩
  | (.ok (paths, total), tr) =>
    ⟨.ok ⟨paths, exportDir ++ "/concat_list.txt", total⟩, tr, some (manifestContent paths)⟩

/-- Rust `line.split("time=")`, specialised to the needle `"time="`:
scan left to right, cutting at each occurrence. -/
def splitTimeEq : List Char → List (List Char)
  | 't' :: 'i' :: 'm' :: 'e' :: '=' :: rest => [] :: splitTimeEq rest
  | x :: xs => consHead x (splitTimeEq xs)
  | [] => [[]]

/-- `line.contains("time=")` followed by `line.split("time=").nth(1)`: the
text after the first progress marker, when the line holds one. -/
def afterTimeMarker (line : List Char) : Option (List Char) :=
  match splitTimeEq line with
  | _ :: t :: _ => some t
  | _ => none

/-- Rust `split_whitespace().next()`: the first maximal run of non-blank
characters (ASCII whitespace; the diagnostic stream is ASCII). -/
def firstToken (cs : List Char) : Option (List Char) :=
  match cs.dropWhile Char.isWhitespace with
  | [] => none
  | rest => some (rest.takeWhile (fun c => !c.isWhitespace))

/-- `(current_ms as f32) / (total_duration_ms as f32)` followed by
`.min(1.0)`. With `total = 0` the `f32` quotient is `inf` (or NaN for
`0/0`) and Rust `f32::min` then returns the other argument `1.0`; the
division is otherwise modelled exactly over `ℚ`. -/
def fractionOf (current total : ℕ) : ℚ :=
  if total = 0 then 1 else min ((current : ℚ) / total) 1

/-- `format!("Exporting... {:.0}%", progress * 100.0)`; the display rounding
is modelled by rational rounding (the text is decorative). -/
def progressMessage (progress : ℚ) : String :=
  "Exporting... " ++ toString (round (progress * 100)) ++ "%"

/-- The `ProgressEvent` one diagnostic line makes `export_concat` emit, if
any: a `time=` marker whose first whitespace-delimited token parses as an
ffmpeg time. -/
def lineEvent (total : ℕ) (line : String) : Option ExportProgress :=
  match afterTimeMarker line.data with
  | none => none
  | some timeStr =>
    match firstToken timeStr with
    | none => none
    | some tok =>
      match parse_ffmpeg_time (String.mk tok) with
      | none => none
      | some current_ms =>
        some ⟨"concat", fractionOf current_ms total, current_ms, total,
              progressMessage (fractionOf current_ms total)⟩

/-- The `EXPORT_FAILED` envelope (the spec's `ConcatFailed`). -/
def exportFailedErr : ErrorEnvelope :=
  ⟨"EXPORT_FAILED", "FFmpeg export failed",
   "Check if output path is writable and source files are valid"⟩

/-- The terminal event emitted after a zero exit status. -/
def completeEvent (total : ℕ) : ExportProgress :=
  ⟨"complete", 1, total, total, "Export complete!"⟩

/-- `export_concat` of `commands/export.rs` over its observable inputs: the
drained lines of the encoder's diagnostic stream and the process exit
status. Returns the command result and the emitted `export-progress`
events, in emission order. -/
def export_concat (stderrLines : List String) (exitSuccess : Bool)
    (total_duration_ms : ℕ) : Except ErrorEnvelope Unit × List ExportProgress :=
  let events := stderrLines.filterMap (lineEvent total_duration_ms)
  if exitSuccess then (.ok (), events ++ [completeEvent total_duration_ms])
  else (.error exportFailedErr, events)

/-! Recording registry of `commands/recording.rs`. -/

/-- A spawned capture subprocess handle (`tokio::process::Child`): the parts
the stop path inspects. -/
structure Child where
  pid : ℕ
  stdinOpen : Bool
deriving DecidableEq

/-- The `RecordingProcesses` map as the association list of its entries
(`HashMap` keys are unique; `remove` takes out the key's one entry). -/
abbrev Registry := List (String × Child)

/-- `HashMap::get`-like view used to state presence of an id. -/
def registryLookup (reg : Registry) (id : String) : Option Child :=
  (reg.find? (fun kv => kv.1 == id)).map (fun kv => kv.2)

/-- The map after `HashMap::remove(&id)`. -/
def registryErase (reg : Registry) (id : String) : Registry :=
  reg.filter (fun kv => kv.1 != id)

/-- How the wait on the stopped encoder ends: clean exit within the 5 s
timeout, an error from `wait()`, or the timeout (then kill and wait again). -/
inductive WaitOutcome where
  | cleanExit
  | waitErr
  | timedOut
deriving DecidableEq

/-- The `RECORDING_NOT_FOUND` envelope of `stop_screen_recording`. -/
def recordingNotFoundErr (id : String) : ErrorEnvelope :=
  ⟨"RECORDING_NOT_FOUND", "No active recording with ID: " ++ id,
   "Recording may have already stopped"⟩

/-- `stop_screen_recording` of `commands/recording.rs`: extract the handle
from the map under the lock; when found, send `q` on stdin and return `Ok`
in each of the three wait sub-paths; when absent, fail with
`RECORDING_NOT_FOUND` and leave the map as it was. -/
def stop_screen_recording (reg : Registry) (recording_id : String) (w : WaitOutcome) :
    Except ErrorEnvelope Unit × Registry :=
  match registryLookup reg recording_id with
  | some _ =>
    ((match w with
      | .cleanExit => .ok ()
      | .waitErr => .ok ()
      | .timedOut => .ok ()),
     registryErase reg recording_id)
  | none => (.error (recordingNotFoundErr recording_id), reg)

example :
    (export_concat ["frame=1 time=00:00:05.00 x"] true 10000).2.map
      (fun e => e.progress) = [1/2, 1] := by decide

/-! Theorems about the time/rate codec. -/

/-- A negative total-seconds value scaled by 1000 converts to `0` under the
saturating `as u64` cast. -/
theorem FVal.toU64_scaleP_of_isNeg (v : FVal) (h : v.isNeg = true) :
    (v.scaleP 1000).toU64 = 0 := by
  cases v with
  | finite q =>
    have hq : q < 0 := by simpa [FVal.isNeg] using h
    have : q * 1000 < 0 := mul_neg_of_neg_of_pos hq (by norm_num)
    simp [FVal.scaleP, FVal.toU64, this]
  | posInf => simp [FVal.isNeg] at h
  | negInf => simp [FVal.scaleP, FVal.toU64]
  | nan => simp [FVal.isNeg] at h

/-- C8: `calculate_thumbnail_time` is a total function returning
`clamp(duration_ms / 10, 500, 5000)`; in particular `0 ↦ 500` (lower
clamp), `20000 ↦ 2000` (unclamped) and `100000 ↦ 5000` (upper clamp). -/
theorem calculate_thumbnail_time_clamps :
    (∀ duration_ms : ℕ,
      calculate_thumbnail_time duration_ms = min (max (duration_ms / 10) 500) 5000)
    ∧ calculate_thumbnail_time 0 = 500
    ∧ calculate_thumbnail_time 20000 = 2000
    ∧ calculate_thumbnail_time 100000 = 5000 :=
  ⟨fun _ => rfl, by decide, by decide, by decide⟩

/-- C7: `parse_ffmpeg_time` succeeds exactly when the input splits on `:`
into exactly three fields and every field parses as an `f64` number; it is
`none` on any other field count or a field parse failure. Concretely,
`"01:02:03.500"` gives `some 3723500`, while `"1:2"` (two fields) and
`"a:b:c"` (non-numeric fields) give `none`. -/
theorem parse_ffmpeg_time_fields :
    (∀ s : String, (parse_ffmpeg_time s).isSome ↔
      ((splitOnChar ':' s.data).length = 3 ∧
        ∀ p ∈ splitOnChar ':' s.data, (parseF64 p).isSome))
    ∧ parse_ffmpeg_time "01:02:03.500" = some 3723500
    ∧ parse_ffmpeg_time "1:2" = none
    ∧ parse_ffmpeg_time "a:b:c" = none := by
  refine ⟨fun s => ?_, by decide, by decide, by decide⟩
  unfold parse_ffmpeg_time ffmpegTimeSeconds
  rcases hsplit : splitOnChar ':' s.data with _ | ⟨p0, _ | ⟨p1, _ | ⟨p2, _ | ⟨p3, l4⟩⟩⟩⟩ <;>
    simp only [hsplit, List.length_cons, List.length_nil, List.mem_cons, List.mem_singleton,
      List.not_mem_nil, Option.isSome_map]
  · simp
  · simp
  · simp
  · cases h0 : parseF64 p0 <;> cases h1 : parseF64 p1 <;> cases h2 : parseF64 p2 <;>
      simp_all
  · simp

/-- C10: the per-field grammar is the full Rust float grammar, so signed and
exponent-notation fields are accepted — `"-1:00:00"` parses (the negative
total saturating to `some 0`) and `"1e1:00:00"` parses as ten hours — and
whenever the computed total-seconds value is negative the `as u64`
conversion saturates, giving `some 0`. -/
theorem parse_ffmpeg_time_signed_saturates :
    (∀ (s : String) (v : FVal), ffmpegTimeSeconds s.data = some v →
      v.isNeg = true → parse_ffmpeg_time s = some 0)
    ∧ parse_ffmpeg_time "-1:00:00" = some 0
    ∧ parse_ffmpeg_time "1e1:00:00" = some 36000000 := by
  refine ⟨fun s v hv hneg => ?_, by decide, by decide⟩
  unfold parse_ffmpeg_time
  rw [hv]
  simp [FVal.toU64_scaleP_of_isNeg v hneg]

/-! Theorems about `export_prepare`. -/

/-- An environment where every source exists and every encode succeeds. -/
def allOkEnv : PrepareEnv := ⟨fun _ => true, fun _ => true⟩

theorem u64size_eq : U64SIZE = 18446744073709551616 := rfl

/-- `u64` subtraction does not wrap when the subtrahend is no larger. -/
theorem u64sub_of_le {a b : ℕ} (hle : b ≤ a) (hlt : a < U64SIZE) :
    u64sub a b = a - b := by
  unfold u64sub
  rw [u64size_eq] at hlt ⊢
  push_cast
  omega

/-- `u64` addition does not wrap below `2^64`. -/
theorem u64add_of_lt {a b : ℕ} (h : a + b < U64SIZE) : u64add a b = a + b :=
  Nat.mod_eq_of_lt h

/-- On the success path of the clip loop the accumulated total is the `u64`
fold of the true per-clip differences, provided no clip has an inverted
range. -/
theorem exportPrepareGo_ok_total (env : PrepareEnv) (exportDir : String)
    (clips : List ExportClip) :
    ∀ (i : ℕ) (acc : List String) (total : ℕ) (paths : List String) (tot : ℕ),
      (∀ c ∈ clips, c.in_ms ≤ c.out_ms ∧ c.out_ms < U64SIZE) →
      (exportPrepareGo env exportDir clips i acc total).1 = .ok (paths, tot) →
      tot = clips.foldl (fun t c => u64add t (c.out_ms - c.in_ms)) total := by
  induction clips with
  | nil =>
    intro i acc total paths tot _ hok
    simp only [exportPrepareGo] at hok
    obtain ⟨rfl, rfl⟩ := Prod.mk.inj (Except.ok.inj hok)
    simp
  | cons clip rest ih =>
    intro i acc total paths tot hwf hok
    have hc := hwf clip (by simp)
    by_cases hex : env.fileExists clip.asset_path = true
    · by_cases henc : env.encodeOk i = true
      · simp only [exportPrepareGo, hex, henc, if_true] at hok
        have := ih (i + 1) (acc ++ [segmentPath exportDir i])
          (u64add total (u64sub clip.out_ms clip.in_ms)) paths tot
          (fun c hcm => hwf c (by simp [hcm])) hok
        rw [List.foldl_cons, ← u64sub_of_le hc.1 hc.2]
        exact this
      · simp only [exportPrepareGo, hex, henc, if_true, if_false] at hok
        exact absurd hok (by simp)
    · simp only [exportPrepareGo, hex, if_false] at hok
      exact absurd hok (by simp)

/-- Folding non-wrapping `u64` additions is a plain sum when the sum fits. -/
theorem foldl_u64add_eq_sum (f : ExportClip → ℕ) (l : List ExportClip) :
    ∀ total : ℕ, total + (l.map f).sum < U64SIZE →
      l.foldl (fun t c => u64add t (f c)) total = total + (l.map f).sum := by
  induction l with
  | nil => intro total h; simp
  | cons c rest ih =>
    intro total h
    simp only [List.map_cons, List.sum_cons] at h ⊢
    rw [List.foldl_cons, u64add_of_lt (by omega), ih (total + f c) (by omega)]
    omega

/-- Rewriting `export_prepare` when the clip loop succeeds. -/
theorem export_prepare_eq_of_go_ok {env : PrepareEnv} {exportDir : String}
    {request : ExportRequest} {paths : List String} {total : ℕ} {tr : List String}
    (hgo : exportPrepareGo env exportDir request.clips 0 [] 0 = (.ok (paths, total), tr)) :
    export_prepare env exportDir request =
      ⟨.ok ⟨paths, exportDir ++ "/concat_list.txt", total⟩, tr,
       some (manifestContent paths)⟩ := by
  unfold export_prepare
  rw [hgo]

/-- Rewriting `export_prepare` when the clip loop fails. -/
theorem export_prepare_eq_of_go_error {env : PrepareEnv} {exportDir : String}
    {request : ExportRequest} {e : ErrorEnvelope} {tr : List String}
    (hgo : exportPrepareGo env exportDir request.clips 0 [] 0 = (.error e, tr)) :
    export_prepare env exportDir request = ⟨.error e, tr, none⟩ := by
  unfold export_prepare
  rw [hgo]

/-- Inverting a successful `export_prepare`. -/
theorem export_prepare_ok_inv {env : PrepareEnv} {exportDir : String}
    {request : ExportRequest} {r : ExportPrepareResult}
    (hok : (export_prepare env exportDir request).result = .ok r) :
    ∃ tr, exportPrepareGo env exportDir request.clips 0 [] 0 =
      (.ok (r.segment_paths, r.total_duration_ms), tr) := by
  rcases hgo : exportPrepareGo env exportDir request.clips 0 [] 0 with ⟨res, tr⟩
  cases res with
  | error e =>
    rw [export_prepare_eq_of_go_error hgo] at hok
    exact absurd hok (by simp)
  | ok pt =>
    rcases pt with ⟨paths, total⟩
    rw [export_prepare_eq_of_go_ok hgo] at hok
    simp only [Except.ok.injEq] at hok
    subst hok
    exact ⟨tr, rfl⟩

/-- A request of two clips whose durations sum to exactly `2^64`. -/
def bigRequest : ExportRequest :=
  ⟨[⟨"a.mp4", 0, 9223372036854775808⟩, ⟨"b.mp4", 0, 9223372036854775808⟩],
   "out.mp4", none, none⟩

/-- A single-clip request with `out_ms < in_ms`. -/
def underflowRequest : ExportRequest :=
  ⟨[⟨"a.mp4", 1000, 0⟩], "out.mp4", none, none⟩

/-- C4 (amended): when every clip satisfies `out_ms > in_ms`, the fields are
`u64` values and the mathematical sum of the clip durations fits in a
`u64`, a successful `export_prepare` returns that sum as
`total_duration_ms`; in particular the clips `(0, 1000)` and `(2000, 5000)`
give `4000`. -/
theorem export_prepare_total_sum :
    (∀ (env : PrepareEnv) (exportDir : String) (request : ExportRequest)
        (r : ExportPrepareResult),
      (∀ c ∈ request.clips, c.in_ms < c.out_ms ∧ c.out_ms < U64SIZE) →
      (request.clips.map (fun c => c.out_ms - c.in_ms)).sum < U64SIZE →
      (export_prepare env exportDir request).result = .ok r →
      r.total_duration_ms = (request.clips.map (fun c => c.out_ms - c.in_ms)).sum)
    ∧ (export_prepare allOkEnv "/t"
        ⟨[⟨"a.mp4", 0, 1000⟩, ⟨"b.mp4", 2000, 5000⟩], "out.mp4", none, none⟩).result =
      .ok ⟨["/t/segment_0000.mp4", "/t/segment_0001.mp4"], "/t/concat_list.txt", 4000⟩ := by
  constructor
  · intro env exportDir request r hwf hsum hok
    obtain ⟨tr, hgo⟩ := export_prepare_ok_inv hok
    have htot := exportPrepareGo_ok_total env exportDir request.clips 0 [] 0
      r.segment_paths r.total_duration_ms
      (fun c hc => ⟨(hwf c hc).1.le, (hwf c hc).2⟩) (by rw [hgo])
    rw [htot, foldl_u64add_eq_sum _ request.clips 0 (by simpa using hsum)]
    simp
  · decide

/-- C4 counterexample: both clips of `bigRequest` satisfy `out_ms > in_ms`,
`export_prepare` succeeds, yet the returned total is `0`, not the
mathematical sum `2^64` — the `u64` accumulator wrapped. -/
theorem export_prepare_total_sum_cex :
    bigRequest.clips.all (fun c => decide (c.in_ms < c.out_ms)) = true
    ∧ (export_prepare allOkEnv "/t" bigRequest).result =
        .ok ⟨["/t/segment_0000.mp4", "/t/segment_0001.mp4"], "/t/concat_list.txt", 0⟩
    ∧ (bigRequest.clips.map (fun c => c.out_ms - c.in_ms)).sum = U64SIZE
    ∧ (0 : ℕ) ≠ U64SIZE := by decide

/-- C9: `export_prepare` has no `out_ms ≥ in_ms` guard. Under the hypothesis
that every clip satisfies `out_ms ≥ in_ms` the wrapping subtraction equals
the true difference, and on a request violating it (`in_ms = 1000`,
`out_ms = 0`) the call still succeeds, its subtraction having wrapped to
`2^64 - 1000`. -/
theorem export_prepare_unchecked_subtraction :
    (∀ (env : PrepareEnv) (exportDir : String) (request : ExportRequest)
        (r : ExportPrepareResult),
      (∀ c ∈ request.clips, c.in_ms ≤ c.out_ms ∧ c.out_ms < U64SIZE) →
      (export_prepare env exportDir request).result = .ok r →
      r.total_duration_ms =
        request.clips.foldl (fun t c => u64add t (c.out_ms - c.in_ms)) 0)
    ∧ (export_prepare allOkEnv "/t" underflowRequest).result =
        .ok ⟨["/t/segment_0000.mp4"], "/t/concat_list.txt", U64SIZE - 1000⟩ := by
  constructor
  · intro env exportDir request r hwf hok
    obtain ⟨tr, hgo⟩ := export_prepare_ok_inv hok
    exact exportPrepareGo_ok_total env exportDir request.clips 0 [] 0
      r.segment_paths r.total_duration_ms hwf (by rw [hgo])
  · decide

/-- One manifest directive line, as the spec describes it. -/
def manifestLine (p : String) : String := "file '" ++ p ++ "'\n"

/-- Modelled from the spec's description of the manifest body: the
concatenation, in segment order, of one directive line per segment. -/
def manifestSpec : List String → String
  | [] => ""
  | p :: rest => manifestLine p ++ manifestSpec rest

/-- The source's fold producing the manifest body equals the spec-side
concatenation of lines. -/
theorem manifestContent_eq_spec (paths : List String) :
    manifestContent paths = manifestSpec paths := by
  suffices h : ∀ init : String,
      paths.foldl (fun acc p => acc ++ "file '" ++ p ++ "'\n") init =
        init ++ manifestSpec paths by
    simpa [manifestContent] using h ""
  induction paths with
  | nil => intro init; simp [manifestSpec, String.append_empty]
  | cons p rest ih =>
    intro init
    simp only [List.foldl_cons, manifestSpec, manifestLine]
    rw [ih]
    simp [String.append_assoc]

/-- C5: the manifest body written by a successful `export_prepare` is
exactly the concatenation, in order, of one line `file '<path>'` plus
newline per returned segment path; in particular for the two segment paths
of the spec's example it is the exact two-line string. -/
theorem export_prepare_manifest :
    (∀ (env : PrepareEnv) (exportDir : String) (request : ExportRequest)
        (r : ExportPrepareResult),
      (export_prepare env exportDir request).result = .ok r →
      (export_prepare env exportDir request).manifest =
        some (manifestSpec r.segment_paths))
    ∧ manifestContent ["/a/segment_0000.mp4", "/a/segment_0001.mp4"] =
      "file '/a/segment_0000.mp4'\nfile '/a/segment_0001.mp4'\n" := by
  constructor
  · intro env exportDir request r hok
    obtain ⟨tr, hgo⟩ := export_prepare_ok_inv hok
    rw [export_prepare_eq_of_go_ok hgo] at hok ⊢
    simp only [Except.ok.injEq] at hok
    rw [← hok]
    simp [manifestContent_eq_spec]
  · decide

/-- The clip loop on `pre ++ missing :: rest` when every clip of `pre`
exists and encodes and the source of `missing` does not exist on disk:
it fails with the missing clip's `FILE_NOT_FOUND` envelope, having encoded
exactly the segments of `pre`. -/
theorem exportPrepareGo_missing (env : PrepareEnv) (exportDir : String)
    (pre : List ExportClip) :
    ∀ (m : ExportClip) (rest : List ExportClip) (i : ℕ) (acc : List String)
      (total : ℕ),
      (∀ c ∈ pre, env.fileExists c.asset_path = true) →
      (∀ j, j < pre.length → env.encodeOk (i + j) = true) →
      env.fileExists m.asset_path = false →
      exportPrepareGo env exportDir (pre ++ m :: rest) i acc total =
        (.error (fileNotFoundErr m.asset_path),
         acc ++ (List.range' i pre.length).map (segmentPath exportDir)) := by
  induction pre with
  | nil =>
    intro m rest i acc total _ _ hmiss
    simp only [List.nil_append, exportPrepareGo, hmiss, List.range', List.map_nil,
      List.append_nil, Bool.false_eq_true, if_false]
  | cons c pre ih =>
    intro m rest i acc total hex henc hmiss
    have hc : env.fileExists c.asset_path = true := hex c (by simp)
    have h0 : env.encodeOk i = true := by simpa using henc 0 (by simp)
    simp only [List.cons_append, exportPrepareGo, hc, h0, if_true, List.append_eq]
    rw [ih m rest (i + 1) (acc ++ [segmentPath exportDir i]) _
      (fun c2 h2 => hex c2 (by simp [h2]))
      (fun j hj => by
        have h2 := henc (j + 1) (by simpa using hj)
        rw [show i + 1 + j = i + (j + 1) from by omega]
        exact h2)
      hmiss]
    simp only [List.length_cons, List.range'_succ, List.map_cons, List.append_assoc,
      List.singleton_append]

/-- An environment where exactly the path `"missing.mp4"` is absent. -/
def missingEnv : PrepareEnv := ⟨fun p => p != "missing.mp4", fun _ => true⟩

/-- A request whose first clip's source exists and whose second clip's
source is the absent `"missing.mp4"`. -/
def oneMissingRequest : ExportRequest :=
  ⟨[⟨"a.mp4", 0, 1000⟩, ⟨"missing.mp4", 0, 1000⟩], "out.mp4", none, none⟩

/-- C6 (amended): when a request holds a clip whose source path does not
exist and every clip before the first such clip exists and encodes,
`export_prepare` fails with the `FILE_NOT_FOUND` envelope of that clip and
the segments encoded by the call are exactly those of the preceding clips —
zero segments when the missing clip comes first, as for a single-clip
request with an absent source. -/
theorem export_prepare_missing_source :
    (∀ (env : PrepareEnv) (exportDir : String) (request : ExportRequest)
        (pre : List ExportClip) (m : ExportClip) (rest : List ExportClip),
      request.clips = pre ++ m :: rest →
      (∀ c ∈ pre, env.fileExists c.asset_path = true) →
      (∀ j, j < pre.length → env.encodeOk j = true) →
      env.fileExists m.asset_path = false →
      (export_prepare env exportDir request).result =
          .error (fileNotFoundErr m.asset_path)
        ∧ (export_prepare env exportDir request).encodedSegments =
            (List.range pre.length).map (segmentPath exportDir)
        ∧ (export_prepare env exportDir request).manifest = none)
    ∧ export_prepare missingEnv "/t"
        ⟨[⟨"missing.mp4", 0, 1000⟩], "out.mp4", none, none⟩ =
      ⟨.error (fileNotFoundErr "missing.mp4"), [], none⟩ := by
  constructor
  · intro env exportDir request pre m rest hclips hex henc hmiss
    have hgo := exportPrepareGo_missing env exportDir pre m rest 0 [] 0 hex
      (fun j hj => by simpa using henc j hj) hmiss
    rw [← hclips] at hgo
    rw [export_prepare_eq_of_go_error hgo]
    refine ⟨rfl, ?_, rfl⟩
    simp [List.range_eq_range']
  · decide

/-- C6 counterexample: a request whose second clip's source is missing
(the first existing and encoding cleanly) fails with the not-found
envelope, yet one segment was encoded by the call — not zero. -/
theorem export_prepare_missing_source_cex :
    (export_prepare missingEnv "/t" oneMissingRequest).result =
      .error (fileNotFoundErr "missing.mp4")
    ∧ (export_prepare missingEnv "/t" oneMissingRequest).encodedSegments =
      ["/t/segment_0000.mp4"]
    ∧ ["/t/segment_0000.mp4"] ≠ ([] : List String) := by decide

/-! Theorems about the recording registry. -/

/-- After `remove(&id)` the id no longer resolves in the map. -/
theorem registryLookup_erase (reg : Registry) (id : String) :
    registryLookup (registryErase reg id) id = none := by
  induction reg with
  | nil => rfl
  | cons kv rest ih =>
    simp only [registryErase, registryLookup, List.filter_cons] at ih ⊢
    cases h : (kv.1 == id) with
    | false => simp [bne, h, List.find?_cons, ih]
    | true => simp [bne, h, ih]

/-- C1: `stop_screen_recording` fails with `RECORDING_NOT_FOUND` exactly
when the id is absent from the registry; when the id is present it returns
`Ok` under every wait outcome (clean exit, wait error, timeout with forced
kill), removes the id, and a second stop of the same id with no intervening
start fails with `RECORDING_NOT_FOUND`. -/
theorem stop_screen_recording_spec (reg : Registry) (id : String) (w w2 : WaitOutcome) :
    ((stop_screen_recording reg id w).1 = .error (recordingNotFoundErr id) ↔
      registryLookup reg id = none)
    ∧ (registryLookup reg id ≠ none →
        (stop_screen_recording reg id w).1 = .ok ()
        ∧ registryLookup (stop_screen_recording reg id w).2 id = none
        ∧ (stop_screen_recording (stop_screen_recording reg id w).2 id w2).1 =
            .error (recordingNotFoundErr id)) := by
  cases hl : registryLookup reg id with
  | none => simp [stop_screen_recording, hl]
  | some c =>
    have hstop : stop_screen_recording reg id w = (.ok (), registryErase reg id) := by
      unfold stop_screen_recording
      rw [hl]
      cases w <;> rfl
    have hl2 : registryLookup (registryErase reg id) id = none :=
      registryLookup_erase reg id
    refine ⟨by rw [hstop]; simp, fun _ => ⟨by rw [hstop], by rw [hstop]; exact hl2, ?_⟩⟩
    rw [hstop]
    simp [stop_screen_recording, hl2]

/-! Theorems about `export_concat`. -/

/-- The shape of any per-line event: stage `"concat"` and the clamped
fraction of its own `current_ms`. -/
theorem lineEvent_shape (total : ℕ) (line : String) (e : ExportProgress)
    (h : lineEvent total line = some e) :
    e.stage = "concat" ∧ e.progress = fractionOf e.current_ms total := by
  unfold lineEvent at h
  split at h
  · exact absurd h (by simp)
  · split at h
    · exact absurd h (by simp)
    · split at h
      · exact absurd h (by simp)
      · simp only [Option.some.injEq] at h
        rw [← h]
        exact ⟨rfl, rfl⟩

/-- The events drained from the stderr lines hold no `complete` stage. -/
theorem filterMap_lineEvent_no_complete (lines : List String) (total : ℕ) :
    (lines.filterMap (lineEvent total)).filter (fun e => e.stage == "complete") = [] := by
  rw [List.filter_eq_nil_iff]
  intro e he
  obtain ⟨line, _, hline⟩ := List.mem_filterMap.mp he
  simp [(lineEvent_shape total line e hline).1]

/-- C2: on a non-zero exit `export_concat` returns the `EXPORT_FAILED`
envelope (the spec's `ConcatFailed`) and emits no `complete`-stage event;
on a zero exit it returns success and emits exactly one event of stage
`complete`, whose fraction is `1.0` — also when the stream yielded no
progress marker at all. -/
theorem export_concat_exit_contract (stderrLines : List String) (total : ℕ) :
    ((export_concat stderrLines false total).1 = .error exportFailedErr
      ∧ (export_concat stderrLines false total).2.filter
          (fun e => e.stage == "complete") = [])
    ∧ ((export_concat stderrLines true total).1 = .ok ()
      ∧ (export_concat stderrLines true total).2.filter
          (fun e => e.stage == "complete") = [completeEvent total]
      ∧ (completeEvent total).progress = 1
      ∧ (export_concat [] true total).2 = [completeEvent total]) := by
  refine ⟨⟨rfl, filterMap_lineEvent_no_complete stderrLines total⟩, rfl, ?_, rfl, rfl⟩
  show ((stderrLines.filterMap (lineEvent total)) ++ [completeEvent total]).filter _ = _
  rw [List.filter_append, filterMap_lineEvent_no_complete]
  simp [completeEvent]

/-- The clamped fraction never exceeds one. -/
theorem fractionOf_le_one (current total : ℕ) : fractionOf current total ≤ 1 := by
  unfold fractionOf
  by_cases h : total = 0
  · simp [h]
  · rw [if_neg h]
    exact min_le_right _ _

/-- The clamped fraction is monotone in the elapsed time. -/
theorem fractionOf_mono {c c2 : ℕ} (total : ℕ) (h : c ≤ c2) :
    fractionOf c total ≤ fractionOf c2 total := by
  unfold fractionOf
  by_cases ht : total = 0
  · simp [ht]
  · rw [if_neg ht, if_neg ht]
    have ht2 : (0 : ℚ) < total := by
      exact_mod_cast Nat.pos_of_ne_zero ht
    exact min_le_min ((div_le_div_iff_of_pos_right ht2).mpr (by exact_mod_cast h)) le_rfl

/-- The fraction of the full duration is one. -/
theorem fractionOf_self (total : ℕ) : fractionOf total total = 1 := by
  unfold fractionOf
  by_cases h : total = 0
  · simp [h]
  · rw [if_neg h, div_self (by exact_mod_cast h), min_self]

/-- Every emitted event's fraction is the clamped ratio of its own
`current_ms` to the run's total. -/
theorem export_concat_event_progress (lines : List String) (b : Bool) (total : ℕ) :
    ∀ e ∈ (export_concat lines b total).2,
      e.progress = fractionOf e.current_ms total := by
  intro e he
  have hmem : (∃ line ∈ lines, lineEvent total line = some e) ∨
      e = completeEvent total := by
    cases b <;> simp [export_concat] at he
    · exact .inl he
    · rcases he with he | he
      · exact .inl he
      · exact .inr he
  rcases hmem with ⟨line, _, hline⟩ | rfl
  · exact (lineEvent_shape total line e hline).2
  · simp [completeEvent, fractionOf_self]

/-- Adjacent fraction monotonicity follows from adjacent `current_ms`
monotonicity for any list of well-shaped events. -/
theorem chain_progress_of_chain_current (total : ℕ) :
    ∀ l : List ExportProgress,
      (∀ e ∈ l, e.progress = fractionOf e.current_ms total) →
      List.Chain' (fun a b => a.current_ms ≤ b.current_ms) l →
      List.Chain' (fun a b => a.progress ≤ b.progress) l := by
  intro l
  induction l with
  | nil => intro _ _; exact List.chain'_nil
  | cons a rest ih =>
    intro hwf hc
    cases rest with
    | nil => exact List.chain'_singleton a
    | cons b rest2 =>
      rw [List.chain'_cons] at hc ⊢
      refine ⟨?_, ih (fun e he => hwf e (List.mem_cons_of_mem _ he)) hc.2⟩
      rw [hwf a (by simp), hwf b (by simp)]
      exact fractionOf_mono total hc.1

/-- C3 (amended): every fraction `export_concat` emits is clamped to at
most `1.0`, and when the parsed time values of the emitted events are
non-decreasing across the run — as a well-behaved encoder stream produces
them — the emitted fractions are monotonically non-decreasing. -/
theorem export_concat_fraction_monotone (stderrLines : List String)
    (exitSuccess : Bool) (total : ℕ) :
    (∀ e ∈ (export_concat stderrLines exitSuccess total).2, e.progress ≤ 1)
    ∧ (List.Chain' (fun a b => a.current_ms ≤ b.current_ms)
          (export_concat stderrLines exitSuccess total).2 →
        List.Chain' (fun a b => a.progress ≤ b.progress)
          (export_concat stderrLines exitSuccess total).2) := by
  constructor
  · intro e he
    rw [export_concat_event_progress stderrLines exitSuccess total e he]
    exact fractionOf_le_one e.current_ms total
  · exact chain_progress_of_chain_current total _
      (export_concat_event_progress stderrLines exitSuccess total)

/-- Diagnostic lines whose time markers decrease within one run. -/
def decreasingLines : List String :=
  ["frame=1 time=00:00:05.00 bitrate=1", "frame=2 time=00:00:01.00 bitrate=1"]

/-- C3 counterexample: fed a line sequence whose markers go backwards, the
emitted fractions are `[1/2, 1/10, 1]` — not monotonically non-decreasing;
the code tracks no maximum. -/
theorem export_concat_fraction_monotone_cex :
    ((export_concat decreasingLines true 10000).2.map (fun e => e.progress) =
      [1/2, 1/10, 1])
    ∧ ¬ List.Chain' (fun a b => a.progress ≤ b.progress)
        (export_concat decreasingLines true 10000).2 := by
  constructor
  · decide
  · intro hch
    have hmap : List.Chain' (fun a b : ℚ => a ≤ b)
        ((export_concat decreasingLines true 10000).2.map (fun e => e.progress)) :=
      (List.chain'_map _).mpr hch
    rw [show (export_concat decreasingLines true 10000).2.map (fun e => e.progress) =
        [1/2, 1/10, 1] from by decide] at hmap
    rw [List.chain'_cons] at hmap
    exact absurd hmap.1 (by decide)

end Clipforge
